import Mathlib

/-!
Shallow embedding of the inning-time aggregation logic of the two scripts
`mlb_inning_times_app.py` and `MLB_PkID_Export.py`.

Both scripts share the same `process_game` aggregation core (a fold over the
play list into a dict keyed by `(inning, halfInning)` holding the min start /
max end timestamp); they differ in row ordering, batch sorting and export
shape.  Python dicts preserve insertion order, so the `times` dict is embedded
as an association list where updating an existing key keeps its position and a
new key is appended at the end.

Python compares strings lexicographically by code point; that comparison is
embedded as the executable `charsLt` on `List Char` (with the code-point
order on `Char`) rather than core `String.lt`, whose `Decidable` instance does not
reduce in the kernel.  The two orders coincide; all timestamp and identifier
comparisons below go through `charsLt`.
-/

namespace MLB

/-- Python string `<`: lexicographic comparison by code point. -/
def charsLt : List Char → List Char → Bool
  | [], [] => false
  | [], _ :: _ => true
  | _ :: _, [] => false
  | a :: as, b :: bs => if a < b then true else if b < a then false else charsLt as bs

/-- Python `a < b` on strings. -/
def strLt (a b : String) : Bool :=
  charsLt a.data b.data

/-- Python `a <= b` on strings (total order: `a <= b` iff not `b < a`). -/
def strLe (a b : String) : Bool :=
  !(strLt b a)

/-- One entry of `allPlays[..]["about"]`: each of the four fields read by
`process_game` may be missing (`play.get("about", {}).get(...)` returns
`None`), hence `Option`. -/
structure Play where
  inning : Option Nat
  halfInning : Option String
  startTime : Option String
  endTime : Option String
deriving DecidableEq

/-- The value stored in the `times` dict: `{"start": ..., "end": ...}`. -/
structure Window where
  start : String
  «end» : String
deriving DecidableEq

/-- Dict key `(inning, half)`. -/
abbrev Key := Nat × String

/-- The four `about.get(...)` reads together with the
`if inning is None or half is None or start is None or end is None: continue`
guard: `some` exactly when all four fields are present. -/
def playFields (p : Play) : Option (Key × String × String) :=
  match p.inning, p.halfInning, p.startTime, p.endTime with
  | some i, some h, some s, some e => some ((i, h), s, e)
  | _, _, _, _ => none

/-- The update of an existing dict entry:
`if start < times[key]["start"]: ...` and `if end > times[key]["end"]: ...`. -/
def mix (w : Window) (s e : String) : Window :=
  ⟨if strLt s w.start then s else w.start, if strLt w.«end» e then e else w.«end»⟩

/-- One dict write of `process_game`: `times[key] = {"start": start, "end":
end}` when the key is unseen (Python dicts append new keys at the end),
otherwise the in-place min/max update, keeping the position of the entry. -/
def updateTimes : List (Key × Window) → Key → String → String → List (Key × Window)
  | [], key, s, e => [(key, ⟨s, e⟩)]
  | (k, w) :: rest, key, s, e =>
    if k = key then (k, mix w s e) :: rest
    else (k, w) :: updateTimes rest key s e

/-- One iteration of the `for play in plays` loop. -/
def stepPlay (times : List (Key × Window)) (p : Play) : List (Key × Window) :=
  match playFields p with
  | none => times
  | some (k, s, e) => updateTimes times k s e

/-- The whole loop of `process_game`: fold the play list into the `times`
dict, starting from `times = {}`. -/
def processPlays (plays : List Play) : List (Key × Window) :=
  plays.foldl stepPlay []

/-- `key in times` lookup on the association list. -/
def lookupTimes : List (Key × Window) → Key → Option Window
  | [], _ => none
  | (k, w) :: rest, key => if k = key then some w else lookupTimes rest key

/-- The `(start, end)` pairs of the valid plays whose key is `k`, in input
order. -/
def playsFor (k : Key) (plays : List Play) : List (String × String) :=
  plays.filterMap (fun p =>
    match playFields p with
    | some (k', s, e) => if k' = k then some (s, e) else none
    | none => none)

/-- All `startTime` values of valid plays with key `k`. -/
def startsFor (k : Key) (plays : List Play) : List String :=
  (playsFor k plays).map Prod.fst

/-- All `endTime` values of valid plays with key `k`. -/
def endsFor (k : Key) (plays : List Play) : List String :=
  (playsFor k plays).map Prod.snd

/-- The keys of the valid plays, in input order (with repetitions). -/
def validKeys (plays : List Play) : List Key :=
  plays.filterMap (fun p => (playFields p).map (·.1))

/-- Folding the remaining `(start, end)` pairs of a key into its window. -/
def foldWindow (w : Window) : List (String × String) → Window
  | [] => w
  | (s, e) :: rest => foldWindow (mix w s e) rest

/-- Python `str.title()` on the ASCII alphabet: an alphabetic character is
uppercased when the previous character is not alphabetic and lowercased
otherwise (the flag is whether the previous character was alphabetic). -/
def titleGo : Bool → List Char → List Char
  | _, [] => []
  | prev, c :: cs =>
    (if c.isAlpha then (if prev then c.toLower else c.toUpper) else c) :: titleGo c.isAlpha cs

/-- `half.title()`. -/
def pyTitle (s : String) : String :=
  ⟨titleGo false s.data⟩

/-- One output row of `process_game`:
`{"gamePk": ..., "inning": ..., "halfInning": half.title(), "startTime": ...,
"endTime": ...}`. -/
structure Row where
  gamePk : String
  inning : Nat
  halfInning : String
  startTime : String
  endTime : String
deriving DecidableEq

/-- The row built from one `times` entry. -/
def rowOf (gp : String) (entry : Key × Window) : Row :=
  ⟨gp, entry.1.1, pyTitle entry.1.2, entry.2.start, entry.2.«end»⟩

/-- The row list built from the `times` entries, in the order given. -/
def rowsOf (gp : String) (times : List (Key × Window)) : List Row :=
  times.map (rowOf gp)

/-- Python tuple `<=` on dict keys `(inning, half)` as used by
`sorted(times.items())` in `MLB_PkID_Export.py`: numeric on the inning, then
string comparison on the half. -/
def keyLeb (a b : Key) : Bool :=
  decide (a.1 < b.1) || (decide (a.1 = b.1) && strLe a.2 b.2)

/-- `sorted(times.items())`: the keys of the `times` dict are pairwise
distinct, so the sort never compares the dict values; a stable sort on the
key order. -/
def sortTimes (times : List (Key × Window)) : List (Key × Window) :=
  List.insertionSort (fun x y => keyLeb x.1 y.1 = true) times

/-- The `process_game` row list of `MLB_PkID_Export.py`: rows are produced from
`sorted(times.items())`. -/
def exportGameRows (gp : String) (plays : List Play) : List Row :=
  rowsOf gp (sortTimes (processPlays plays))

/-- The `process_game` row list of `mlb_inning_times_app.py`: rows are produced
from `times.items()` in dict insertion order. -/
def appGameRows (gp : String) (plays : List Play) : List Row :=
  rowsOf gp (processPlays plays)

/-- The display sort rank of a title-cased half:
`df2["halfInning"].map({"Top": 0, "Bottom": 1})`.  Any other value maps to
NaN, which pandas `sort_values` places last; rank 2 embeds that. -/
def orderVal (h : String) : Nat :=
  if h = "Top" then 0 else if h = "Bottom" then 1 else 2

/-- The row order of `df2.sort_values(by=["inning", "order"])`. -/
def rowLeb (a b : Row) : Bool :=
  decide (a.inning < b.inning) ||
    (decide (a.inning = b.inning) && decide (orderVal a.halfInning ≤ orderVal b.halfInning))

/-- `df2.sort_values(by=["inning", "order"])` in `mlb_inning_times_app.py`:
sort the rows by (inning, Top=0/Bottom=1). -/
def displaySort (rows : List Row) : List Row :=
  List.insertionSort (fun a b => rowLeb a b = true) rows

/-- The ordering the claim designates as canonical: inning ascending, and
within one inning the "Top" row before the "Bottom" row. -/
def canonicallyOrdered (rows : List Row) : Prop :=
  List.Sorted (fun a b => rowLeb a b = true) rows

/-- The downloadable artifact of the export branch: either a CSV file or a
spreadsheet of named sheets. -/
inductive Artifact where
  | csv (fileName : String) (rows : List Row)
  | excel (sheets : List (String × List Row))
deriving DecidableEq

/-- `mlb_inning_times_app.py` export branch: no artifact without results; a
CSV of the single display-sorted result named `{gp}_innings_times.csv` when
exactly one result exists; otherwise one sheet per game, named `str(gp)`,
each display-sorted. -/
def exportApp (result_data : List (String × List Row)) : Option Artifact :=
  match result_data with
  | [] => none
  | [(gp, rows)] => some (.csv (gp ++ "_innings_times.csv") (displaySort rows))
  | _ => some (.excel (result_data.map (fun e => (e.1, displaySort e.2))))

/-- `MLB_PkID_Export.py` export branch: `combined = pd.concat(result_dfs)`;
a CSV of `combined` named `{game_pks[0]}_innings_times.csv` when exactly one
result exists; otherwise a single sheet named `"Innings"` holding
`combined`. -/
def exportPk (result_dfs : List (List Row)) (game_pks : List String) : Option Artifact :=
  match result_dfs with
  | [] => none
  | [rows] => some (.csv ((game_pks.headD "") ++ "_innings_times.csv") rows)
  | _ => some (.excel [("Innings", result_dfs.flatten)])

/-- Whether the export artifact is a CSV. -/
def isCsv : Option Artifact → Bool
  | some (.csv _ _) => true
  | _ => false

/-- The sheet names of a spreadsheet artifact. -/
def sheetNames : Option Artifact → Option (List String)
  | some (.excel sheets) => some (sheets.map Prod.fst)
  | _ => none

/-- `process_game` of `mlb_inning_times_app.py`, with the fetch outcome made
explicit: `none` models the `except requests.RequestException` branch (the
error is shown and `None` returned before any aggregation); `some plays`
models a successful fetch of `data["allPlays"]`. -/
def process_game (fetched : Option (List Play)) (gp : String) : Option (List Row) :=
  match fetched with
  | none => none
  | some plays => some (appGameRows gp plays)

/-- `process_game` of `MLB_PkID_Export.py` (rows sorted by natural key). -/
def process_game_pk (fetched : Option (List Play)) (gp : String) : Option (List Row) :=
  match fetched with
  | none => none
  | some plays => some (exportGameRows gp plays)

/-- The collection loop of `mlb_inning_times_app.py`:
`if df is not None and not df.empty: result_data.append((gp, df))`. -/
def collectResults (fetch : String → Option (List Play)) (pks : List String) :
    List (String × List Row) :=
  pks.filterMap (fun gp =>
    match process_game (fetch gp) gp with
    | none => none
    | some rows => if rows = [] then none else some (gp, rows))

/-- The collection loop of `MLB_PkID_Export.py`: `result_dfs.append(df)`,
kept in input order (this script never sorts the batch). -/
def collectDfs (fetch : String → Option (List Play)) (pks : List String) :
    List (List Row) :=
  pks.filterMap (fun gp =>
    match process_game_pk (fetch gp) gp with
    | none => none
    | some rows => if rows = [] then none else some rows)

/-- Python `str.strip()`: remove whitespace from both ends (modelled on the
ASCII whitespace of `Char.isWhitespace`, which covers the space, tab and
newline characters arising in identifiers). -/
def pyStrip (s : String) : String :=
  ⟨((s.data.dropWhile Char.isWhitespace).reverse.dropWhile Char.isWhitespace).reverse⟩

/-- The value of a digit string. -/
def digitsToNat (ds : List Char) : Nat :=
  ds.foldl (fun n c => n * 10 + (c.toNat - 48)) 0

/-- Python `int(s)` on an identifier token: surrounding whitespace, an
optional sign, then at least one ASCII digit (`None` models the
`ValueError`).  Underscore separators and non-ASCII digits are outside the
modelled input alphabet. -/
def parsePyInt (s : String) : Option Int :=
  match (pyStrip s).data with
  | [] => none
  | '+' :: ds =>
    if !ds.isEmpty && ds.all Char.isDigit then some (digitsToNat ds) else none
  | '-' :: ds =>
    if !ds.isEmpty && ds.all Char.isDigit then some (-(digitsToNat ds : Int)) else none
  | ds =>
    if ds.all Char.isDigit then some (digitsToNat ds) else none

/-- The batch sort of `mlb_inning_times_app.py`:
`result_data.sort(key=lambda x: int(x[0]))` falling back to
`result_data.sort(key=lambda x: x[0])` on `ValueError`.  CPython computes all
sort keys before reordering, so a `ValueError` on any identifier leaves the
list unchanged and the whole batch is then string-sorted; both sorts are
stable, as is `insertionSort`. -/
def sortResultData (rd : List (String × List Row)) : List (String × List Row) :=
  if rd.all (fun e => (parsePyInt e.1).isSome) then
    List.insertionSort (fun a b => ((parsePyInt a.1).getD 0) ≤ ((parsePyInt b.1).getD 0)) rd
  else
    List.insertionSort (fun a b => strLe a.1 b.1 = true) rd

/-- Python `str.splitlines()` restricted to the `\n`, `\r\n` and `\r` line
boundaries: each terminator ends a line (possibly empty), and a final
unterminated segment is a line only if non-empty (so `""` gives no lines). -/
def splitLinesGo : List Char → List Char → List String
  | [], acc => if acc.isEmpty then [] else [⟨acc.reverse⟩]
  | '\n' :: cs, acc => ⟨acc.reverse⟩ :: splitLinesGo cs []
  | '\r' :: '\n' :: cs, acc => ⟨acc.reverse⟩ :: splitLinesGo cs []
  | '\r' :: cs, acc => ⟨acc.reverse⟩ :: splitLinesGo cs []
  | c :: cs, acc => splitLinesGo cs (c :: acc)

/-- `text.splitlines()`. -/
def splitLines (s : String) : List String :=
  splitLinesGo s.data []

/-- `[line.strip() for line in lines if line.strip()]`: keep the lines whose
strip is non-empty, stripped. -/
def stripLines (lines : List String) : List String :=
  (lines.filter (fun l => pyStrip l ≠ "")).map pyStrip

/-- The `game_pks` gathering of both scripts: the stripped non-empty lines of
the text area (`if game_pks_input:` skips an empty text area) followed by the
stripped non-empty lines of the uploaded file when one was provided; nothing
is deduplicated. -/
def gatherGamePks (textInput : String) (fileText : Option String) : List String :=
  (if textInput = "" then [] else stripLines (splitLines textInput)) ++
    (match fileText with
     | none => []
     | some t => stripLines (splitLines t))

end MLB

namespace MLB

example : processPlays [⟨some 1, some "top", some "b", some "a"⟩] =
    [((1, "top"), ⟨"b", "a"⟩)] := by decide

example : processPlays [⟨some 1, some "top", some "b", some "c"⟩,
    ⟨some 1, some "top", some "a", some "d"⟩] =
    [((1, "top"), ⟨"a", "d"⟩)] := by decide

example : strLt "" "a" = true := by decide

example : ('a' : Char) < 'b' := by decide

example : pyTitle "top" = "Top" := by decide

example : pyTitle "Top" = "Top" := by decide

example : splitLines "a\nb\r\nc\r" = ["a", "b", "c"] := by decide

example : splitLines "\n" = [""] := by decide

example : splitLines "" = [] := by decide

example : gatherGamePks " 10 \n\n2" (some "10\r\n") = ["10", "2", "10"] := by decide

example : parsePyInt "10" = some 10 := by decide

example : parsePyInt "-07" = some (-7) := by decide

example : parsePyInt "abc" = none := by decide

example : parsePyInt "" = none := by decide

example : sortTimes [((1, "top"), ⟨"a", "b"⟩), ((1, "bottom"), ⟨"c", "d"⟩)] =
    [((1, "bottom"), ⟨"c", "d"⟩), ((1, "top"), ⟨"a", "b"⟩)] := by decide

example :
    (sortResultData [("10", []), ("2", []), ("30", [])]).map Prod.fst =
      ["2", "10", "30"] := by decide

example :
    (sortResultData [("10", []), ("abc", []), ("2", [])]).map Prod.fst =
      ["10", "2", "abc"] := by decide

/-! ### Order lemmas for the embedded string comparison -/

theorem charsLt_irrefl : ∀ l : List Char, charsLt l l = false
  | [] => rfl
  | c :: cs => by simp [charsLt, charsLt_irrefl cs]

theorem charsLt_trans : ∀ {a b c : List Char},
    charsLt a b = true → charsLt b c = true → charsLt a c = true
  | [], _ :: _, _ :: _, _, _ => rfl
  | x :: xs, y :: ys, z :: zs, hab, hbc => by
    simp only [charsLt] at hab hbc ⊢
    by_cases hxy : x < y
    · by_cases hyz : y < z
      · simp [lt_trans hxy hyz]
      · simp only [if_pos hxy] at hab
        by_cases hzy : z < y
        · simp [hyz, hzy] at hbc
        · have hyz' : y = z := le_antisymm (le_of_not_lt hzy) (le_of_not_lt hyz)
          subst hyz'
          simp [hxy]
    · by_cases hyx : y < x
      · simp [hxy, hyx] at hab
      · have hxy' : x = y := le_antisymm (le_of_not_lt hyx) (le_of_not_lt hxy)
        subst hxy'
        simp only [if_neg hxy, charsLt_irrefl, lt_irrefl, if_neg (lt_irrefl x)] at hab
        by_cases hyz : x < z
        · simp [hyz]
        · by_cases hzy : z < x
          · simp [hyz, hzy] at hbc
          · have : x = z := le_antisymm (le_of_not_lt hzy) (le_of_not_lt hyz)
            subst this
            simp only [lt_irrefl, if_neg (lt_irrefl x)] at hbc ⊢
            exact charsLt_trans hab hbc

theorem charsLt_connex : ∀ {a b : List Char},
    charsLt a b = false → charsLt b a = false → a = b
  | [], [], _, _ => rfl
  | [], _ :: _, hab, _ => by simp [charsLt] at hab
  | _ :: _, [], _, hba => by simp [charsLt] at hba
  | x :: xs, y :: ys, hab, hba => by
    simp only [charsLt] at hab hba
    by_cases hxy : x < y
    · simp [hxy] at hab
    · by_cases hyx : y < x
      · simp [hyx] at hba
      · have hxy' : x = y := le_antisymm (le_of_not_lt hyx) (le_of_not_lt hxy)
        subst hxy'
        simp only [lt_irrefl, if_neg (lt_irrefl x)] at hab hba
        exact congrArg (x :: ·) (charsLt_connex hab hba)

theorem charsLt_asymm {a b : List Char} (h : charsLt a b = true) : charsLt b a = false := by
  by_contra hba
  have hba' : charsLt b a = true := by
    cases hc : charsLt b a
    · exact absurd hc hba
    · rfl
  have := charsLt_trans h hba'
  rw [charsLt_irrefl] at this
  exact Bool.false_ne_true this

theorem strLe_refl (a : String) : strLe a a = true := by
  simp [strLe, strLt, charsLt_irrefl]

theorem strLt_asymm {a b : String} (h : strLt a b = true) : strLt b a = false :=
  charsLt_asymm h

theorem strLe_of_strLt {a b : String} (h : strLt a b = true) : strLe a b = true := by
  simp [strLe, strLt_asymm h]

theorem strLe_of_not_strLt {a b : String} (h : strLt b a = false) : strLe a b = true := by
  simp [strLe, h]

theorem strLe_total (a b : String) : strLe a b = true ∨ strLe b a = true := by
  cases h : strLt b a
  · exact Or.inl (strLe_of_not_strLt h)
  · exact Or.inr (strLe_of_not_strLt (strLt_asymm h))

theorem strLe_antisymm {a b : String} (hab : strLe a b = true) (hba : strLe b a = true) :
    a = b := by
  simp only [strLe, Bool.not_eq_true'] at hab hba
  cases a with
  | mk da =>
    cases b with
    | mk db => exact congrArg String.mk (charsLt_connex hba hab)

theorem strLe_trans {a b c : String} (hab : strLe a b = true) (hbc : strLe b c = true) :
    strLe a c = true := by
  simp only [strLe, strLt, Bool.not_eq_true'] at hab hbc ⊢
  cases hca : charsLt c.data a.data
  · rfl
  · exfalso
    cases hbc' : charsLt b.data c.data
    · have hbceq : b.data = c.data := charsLt_connex hbc' hbc
      rw [← hbceq] at hca
      exact Bool.false_ne_true (hab ▸ hca)
    · have := charsLt_trans hbc' hca
      exact Bool.false_ne_true (hab ▸ this)

theorem strLe_empty_left (s : String) : strLe "" s = true := by
  simp only [strLe, strLt, Bool.not_eq_true']
  cases s with
  | mk d =>
    cases d with
    | nil => rfl
    | cons c cs => rfl

theorem eq_empty_of_strLe_empty {s : String} (h : strLe s "" = true) : s = "" :=
  strLe_antisymm h (strLe_empty_left s)

/-! ### The min/max fold of `process_game` -/

theorem mix_start_le_left (w : Window) (s e : String) :
    strLe (mix w s e).start w.start = true := by
  simp only [mix]
  by_cases h : strLt s w.start = true
  · simp only [if_pos h]
    exact strLe_of_strLt h
  · simp only [if_neg h]
    exact strLe_refl _

theorem mix_start_le_right (w : Window) (s e : String) :
    strLe (mix w s e).start s = true := by
  simp only [mix]
  by_cases h : strLt s w.start = true
  · simp only [if_pos h]
    exact strLe_refl _
  · simp only [if_neg h]
    exact strLe_of_not_strLt (by cases hc : strLt s w.start <;> simp_all)

theorem mix_end_ge_left (w : Window) (s e : String) :
    strLe w.«end» (mix w s e).«end» = true := by
  simp only [mix]
  by_cases h : strLt w.«end» e = true
  · simp only [if_pos h]
    exact strLe_of_strLt h
  · simp only [if_neg h]
    exact strLe_refl _

theorem mix_end_ge_right (w : Window) (s e : String) :
    strLe e (mix w s e).«end» = true := by
  simp only [mix]
  by_cases h : strLt w.«end» e = true
  · simp only [if_pos h]
    exact strLe_refl _
  · simp only [if_neg h]
    exact strLe_of_not_strLt (by cases hc : strLt w.«end» e <;> simp_all)

theorem mix_start_mem (w : Window) (s e : String) :
    (mix w s e).start = w.start ∨ (mix w s e).start = s := by
  simp only [mix]
  by_cases h : strLt s w.start = true
  · exact Or.inr (by simp [if_pos h])
  · exact Or.inl (by simp [if_neg h])

theorem mix_end_mem (w : Window) (s e : String) :
    (mix w s e).«end» = w.«end» ∨ (mix w s e).«end» = e := by
  simp only [mix]
  by_cases h : strLt w.«end» e = true
  · exact Or.inr (by simp [if_pos h])
  · exact Or.inl (by simp [if_neg h])

theorem foldWindow_start_le_init :
    ∀ (l : List (String × String)) (w : Window), strLe (foldWindow w l).start w.start = true
  | [], w => strLe_refl _
  | (s, e) :: rest, w =>
    strLe_trans (foldWindow_start_le_init rest (mix w s e)) (mix_start_le_left w s e)

theorem foldWindow_end_ge_init :
    ∀ (l : List (String × String)) (w : Window), strLe w.«end» (foldWindow w l).«end» = true
  | [], w => strLe_refl _
  | (s, e) :: rest, w =>
    strLe_trans (mix_end_ge_left w s e) (foldWindow_end_ge_init rest (mix w s e))

theorem foldWindow_start_le :
    ∀ (l : List (String × String)) (w : Window), ∀ p ∈ l, strLe (foldWindow w l).start p.1 = true
  | (s, e) :: rest, w, p, hp => by
    rcases List.mem_cons.1 hp with h | h
    · subst h
      exact strLe_trans (foldWindow_start_le_init rest (mix w s e)) (mix_start_le_right w s e)
    · exact foldWindow_start_le rest (mix w s e) p h

theorem foldWindow_end_ge :
    ∀ (l : List (String × String)) (w : Window), ∀ p ∈ l, strLe p.2 (foldWindow w l).«end» = true
  | (s, e) :: rest, w, p, hp => by
    rcases List.mem_cons.1 hp with h | h
    · subst h
      exact strLe_trans (mix_end_ge_right w s e) (foldWindow_end_ge_init rest (mix w s e))
    · exact foldWindow_end_ge rest (mix w s e) p h

theorem foldWindow_start_mem :
    ∀ (l : List (String × String)) (w : Window),
      (foldWindow w l).start = w.start ∨ (foldWindow w l).start ∈ l.map Prod.fst
  | [], w => Or.inl rfl
  | (s, e) :: rest, w => by
    rcases foldWindow_start_mem rest (mix w s e) with h | h
    · rcases mix_start_mem w s e with h' | h'
      · exact Or.inl (h.trans h')
      · refine Or.inr ?_
        show (foldWindow (mix w s e) rest).start ∈ _
        rw [h, h', List.map_cons]
        exact List.mem_cons_self _ _
    · refine Or.inr ?_
      show (foldWindow (mix w s e) rest).start ∈ _
      rw [List.map_cons]
      exact List.mem_cons_of_mem _ h

theorem foldWindow_end_mem :
    ∀ (l : List (String × String)) (w : Window),
      (foldWindow w l).«end» = w.«end» ∨ (foldWindow w l).«end» ∈ l.map Prod.snd
  | [], w => Or.inl rfl
  | (s, e) :: rest, w => by
    rcases foldWindow_end_mem rest (mix w s e) with h | h
    · rcases mix_end_mem w s e with h' | h'
      · exact Or.inl (h.trans h')
      · refine Or.inr ?_
        show (foldWindow (mix w s e) rest).«end» ∈ _
        rw [h, h', List.map_cons]
        exact List.mem_cons_self _ _
    · refine Or.inr ?_
      show (foldWindow (mix w s e) rest).«end» ∈ _
      rw [List.map_cons]
      exact List.mem_cons_of_mem _ h

/-! ### Lookup characterization of the dict fold -/

theorem lookupTimes_updateTimes_self :
    ∀ (times : List (Key × Window)) (k : Key) (s e : String),
      lookupTimes (updateTimes times k s e) k =
        some (match lookupTimes times k with
              | none => ⟨s, e⟩
              | some w => mix w s e)
  | [], k, s, e => by simp [updateTimes, lookupTimes]
  | (k₀, w₀) :: rest, k, s, e => by
    by_cases h : k₀ = k
    · subst h
      simp [updateTimes, lookupTimes]
    · simp only [updateTimes, if_neg h, lookupTimes]
      exact lookupTimes_updateTimes_self rest k s e

theorem lookupTimes_updateTimes_other :
    ∀ (times : List (Key × Window)) (k k' : Key) (s e : String), k' ≠ k →
      lookupTimes (updateTimes times k s e) k' = lookupTimes times k'
  | [], k, k', s, e, h => by
    simp [updateTimes, lookupTimes, Ne.symm h]
  | (k₀, w₀) :: rest, k, k', s, e, h => by
    by_cases h₀ : k₀ = k
    · subst h₀
      simp [updateTimes, lookupTimes, Ne.symm h]
    · by_cases h₁ : k₀ = k'
      · subst h₁
        simp [updateTimes, lookupTimes, h]
      · simp only [updateTimes, if_neg h₀, lookupTimes, if_neg h₁]
        exact lookupTimes_updateTimes_other rest k k' s e h

theorem lookupTimes_foldl :
    ∀ (plays : List Play) (acc : List (Key × Window)) (k : Key),
      lookupTimes (plays.foldl stepPlay acc) k =
        match lookupTimes acc k, playsFor k plays with
        | none, [] => none
        | none, (s, e) :: rest => some (foldWindow ⟨s, e⟩ rest)
        | some w, l => some (foldWindow w l)
  | [], acc, k => by
    cases h : lookupTimes acc k <;> simp [playsFor, List.foldl, h, foldWindow]
  | p :: ps, acc, k => by
    rw [List.foldl_cons]
    cases hf : playFields p with
    | none =>
      have hstep : stepPlay acc p = acc := by simp [stepPlay, hf]
      have hpf : playsFor k (p :: ps) = playsFor k ps := by
        simp [playsFor, List.filterMap_cons, hf]
      rw [hstep, hpf]
      exact lookupTimes_foldl ps acc k
    | some v =>
      obtain ⟨k', s, e⟩ := v
      have hstep : stepPlay acc p = updateTimes acc k' s e := by simp [stepPlay, hf]
      rw [hstep]
      by_cases hk : k' = k
      · subst hk
        have hpf : playsFor k' (p :: ps) = (s, e) :: playsFor k' ps := by
          simp [playsFor, List.filterMap_cons, hf]
        rw [hpf, lookupTimes_foldl ps (updateTimes acc k' s e) k',
          lookupTimes_updateTimes_self]
        cases hacc : lookupTimes acc k' with
        | none =>
          cases playsFor k' ps <;> simp [foldWindow]
        | some w =>
          cases playsFor k' ps <;> simp [foldWindow]
      · have hpf : playsFor k (p :: ps) = playsFor k ps := by
          simp [playsFor, List.filterMap_cons, hf, hk]
        rw [hpf, lookupTimes_foldl ps (updateTimes acc k' s e) k,
          lookupTimes_updateTimes_other acc k' k s e (fun hh => hk hh.symm)]

/-! ### Key-set lemmas: one dict entry per distinct key -/

theorem keys_updateTimes :
    ∀ (times : List (Key × Window)) (k : Key) (s e : String),
      (updateTimes times k s e).map Prod.fst =
        if k ∈ times.map Prod.fst then times.map Prod.fst
        else times.map Prod.fst ++ [k]
  | [], k, s, e => by simp [updateTimes]
  | (k₀, w₀) :: rest, k, s, e => by
    by_cases h : k₀ = k
    · subst h
      simp [updateTimes]
    · simp only [updateTimes, if_neg h, List.map_cons, keys_updateTimes rest k s e,
        List.mem_cons]
      by_cases hm : k ∈ rest.map Prod.fst
      · simp [hm, Ne.symm h]
      · simp [hm, Ne.symm h]

theorem nodup_keys_updateTimes (times : List (Key × Window)) (k : Key) (s e : String)
    (h : (times.map Prod.fst).Nodup) : ((updateTimes times k s e).map Prod.fst).Nodup := by
  rw [keys_updateTimes]
  by_cases hm : k ∈ times.map Prod.fst
  · simpa [hm] using h
  · simp only [if_neg hm]
    rw [List.nodup_append]
    refine ⟨h, List.nodup_singleton k, ?_⟩
    intro a ha hak
    rw [List.mem_singleton] at hak
    exact hm (hak ▸ ha)

theorem nodup_keys_foldl :
    ∀ (plays : List Play) (acc : List (Key × Window)),
      (acc.map Prod.fst).Nodup → ((plays.foldl stepPlay acc).map Prod.fst).Nodup
  | [], acc, h => h
  | p :: ps, acc, h => by
    rw [List.foldl_cons]
    cases hf : playFields p with
    | none =>
      have : stepPlay acc p = acc := by simp [stepPlay, hf]
      rw [this]
      exact nodup_keys_foldl ps acc h
    | some v =>
      obtain ⟨k, s, e⟩ := v
      have : stepPlay acc p = updateTimes acc k s e := by simp [stepPlay, hf]
      rw [this]
      exact nodup_keys_foldl ps _ (nodup_keys_updateTimes acc k s e h)

theorem mem_keys_foldl :
    ∀ (plays : List Play) (acc : List (Key × Window)) (k : Key),
      (k ∈ (plays.foldl stepPlay acc).map Prod.fst ↔
        k ∈ acc.map Prod.fst ∨ k ∈ validKeys plays)
  | [], acc, k => by simp [validKeys]
  | p :: ps, acc, k => by
    rw [List.foldl_cons]
    cases hf : playFields p with
    | none =>
      have hstep : stepPlay acc p = acc := by simp [stepPlay, hf]
      have hvk : validKeys (p :: ps) = validKeys ps := by
        simp [validKeys, List.filterMap_cons, hf]
      rw [hstep, hvk]
      exact mem_keys_foldl ps acc k
    | some v =>
      obtain ⟨k', s, e⟩ := v
      have hstep : stepPlay acc p = updateTimes acc k' s e := by simp [stepPlay, hf]
      have hvk : validKeys (p :: ps) = k' :: validKeys ps := by
        simp [validKeys, List.filterMap_cons, hf]
      rw [hstep, hvk, mem_keys_foldl ps _ k, keys_updateTimes]
      by_cases hm : k' ∈ acc.map Prod.fst
      · simp only [if_pos hm, List.mem_cons]
        constructor
        · tauto
        · rintro (h | h | h)
          · exact Or.inl h
          · exact Or.inl (h ▸ hm)
          · exact Or.inr h
      · simp only [if_neg hm, List.mem_append, List.mem_cons, List.not_mem_nil, or_false]
        tauto

theorem length_processPlays (plays : List Play) :
    (processPlays plays).length = (validKeys plays).dedup.length := by
  have hnd : ((processPlays plays).map Prod.fst).Nodup :=
    nodup_keys_foldl plays [] (by simp)
  have hmem : ∀ k, k ∈ (processPlays plays).map Prod.fst ↔ k ∈ (validKeys plays).dedup := by
    intro k
    rw [List.mem_dedup]
    simpa using mem_keys_foldl plays [] k
  have hperm : List.Perm ((processPlays plays).map Prod.fst) (validKeys plays).dedup :=
    (List.perm_ext_iff_of_nodup hnd (List.nodup_dedup _)).2 hmem
  have h1 : (processPlays plays).length = ((processPlays plays).map Prod.fst).length := by
    rw [List.length_map]
  rw [h1]
  exact hperm.length_eq

theorem processPlays_eq_nil_of_validKeys_nil (plays : List Play)
    (h : validKeys plays = []) : processPlays plays = [] := by
  have hl := length_processPlays plays
  rw [h] at hl
  simp only [List.dedup_nil, List.length_nil] at hl
  exact List.length_eq_zero.1 hl

/-! ### Only valid plays contribute -/

theorem foldl_filter_valid :
    ∀ (plays : List Play) (acc : List (Key × Window)),
      plays.foldl stepPlay acc =
        (plays.filter (fun q => (playFields q).isSome)).foldl stepPlay acc
  | [], acc => rfl
  | p :: ps, acc => by
    cases hf : playFields p with
    | none =>
      have hstep : stepPlay acc p = acc := by simp [stepPlay, hf]
      rw [List.foldl_cons, hstep, List.filter_cons, if_neg (by simp [hf])]
      exact foldl_filter_valid ps acc
    | some v =>
      rw [List.foldl_cons, List.filter_cons, if_pos (by simp [hf]), List.foldl_cons]
      exact foldl_filter_valid ps (stepPlay acc p)

/-! ### Window characterization: stored extremes are the min/max per key -/

theorem lookupTimes_processPlays_eq_none_iff (plays : List Play) (k : Key) :
    lookupTimes (processPlays plays) k = none ↔ playsFor k plays = [] := by
  have hl := lookupTimes_foldl plays [] k
  rw [processPlays]
  rw [hl]
  cases hpf : playsFor k plays with
  | nil => simp [lookupTimes]
  | cons se rest =>
    obtain ⟨s, e⟩ := se
    simp [lookupTimes]

theorem processPlays_window_minmax (plays : List Play) (k : Key) (w : Window)
    (h : lookupTimes (processPlays plays) k = some w) :
    w.start ∈ startsFor k plays ∧ (∀ s ∈ startsFor k plays, strLe w.start s = true) ∧
      w.«end» ∈ endsFor k plays ∧ (∀ e ∈ endsFor k plays, strLe e w.«end» = true) := by
  have hl := lookupTimes_foldl plays [] k
  rw [processPlays] at h
  rw [h] at hl
  cases hpf : playsFor k plays with
  | nil =>
    rw [hpf] at hl
    simp [lookupTimes] at hl
  | cons se rest =>
    obtain ⟨s, e⟩ := se
    rw [hpf] at hl
    simp only [lookupTimes, Option.some.injEq] at hl
    subst hl
    refine ⟨?_, ?_, ?_, ?_⟩
    · rw [startsFor, hpf, List.map_cons]
      rcases foldWindow_start_mem rest ⟨s, e⟩ with hm | hm
      · rw [hm]
        exact List.mem_cons_self _ _
      · exact List.mem_cons_of_mem _ hm
    · intro s' hs'
      rw [startsFor, hpf, List.map_cons] at hs'
      rcases List.mem_cons.1 hs' with h' | h'
      · rw [h']
        exact foldWindow_start_le_init rest ⟨s, e⟩
      · obtain ⟨p, hp, hps⟩ := List.mem_map.1 h'
        exact hps ▸ foldWindow_start_le rest ⟨s, e⟩ p hp
    · rw [endsFor, hpf, List.map_cons]
      rcases foldWindow_end_mem rest ⟨s, e⟩ with hm | hm
      · rw [hm]
        exact List.mem_cons_self _ _
      · exact List.mem_cons_of_mem _ hm
    · intro e' he'
      rw [endsFor, hpf, List.map_cons] at he'
      rcases List.mem_cons.1 he' with h' | h'
      · rw [h']
        exact foldWindow_end_ge_init rest ⟨s, e⟩
      · obtain ⟨p, hp, hps⟩ := List.mem_map.1 h'
        exact hps ▸ foldWindow_end_ge rest ⟨s, e⟩ p hp

/-! ### Claim theorems -/

/-- C1: for every play list (so for valid plays inserted in any order), the
window stored for key `(inning, halfInning)` has `start` equal (by the
embedded Python string comparison) to the minimum of all `startTime` values
for that key — it is one of them and a lower bound — and `end` equal to the
maximum of all `endTime` values. -/
theorem c1_window_start_min_end_max (plays : List Play) (k : Key) (w : Window)
    (h : lookupTimes (processPlays plays) k = some w) :
    w.start ∈ startsFor k plays ∧ (∀ s ∈ startsFor k plays, strLe w.start s = true) ∧
      w.«end» ∈ endsFor k plays ∧ (∀ e ∈ endsFor k plays, strLe e w.«end» = true) :=
  processPlays_window_minmax plays k w h

/-- Witness for C1: two plays for inning 1 top give the window
`{start: "a", end: "d"}`, which is the componentwise min/max. -/
theorem c1_window_start_min_end_max_witness :
    (Window.mk "a" "d").start ∈
        startsFor (1, "top") [⟨some 1, some "top", some "b", some "c"⟩,
          ⟨some 1, some "top", some "a", some "d"⟩] ∧
      (∀ s ∈ startsFor (1, "top") [⟨some 1, some "top", some "b", some "c"⟩,
          ⟨some 1, some "top", some "a", some "d"⟩],
        strLe (Window.mk "a" "d").start s = true) ∧
      (Window.mk "a" "d").«end» ∈
        endsFor (1, "top") [⟨some 1, some "top", some "b", some "c"⟩,
          ⟨some 1, some "top", some "a", some "d"⟩] ∧
      (∀ e ∈ endsFor (1, "top") [⟨some 1, some "top", some "b", some "c"⟩,
          ⟨some 1, some "top", some "a", some "d"⟩],
        strLe e (Window.mk "a" "d").«end» = true) :=
  c1_window_start_min_end_max
    [⟨some 1, some "top", some "b", some "c"⟩, ⟨some 1, some "top", some "a", some "d"⟩]
    (1, "top") ⟨"a", "d"⟩ (by decide)

/-- C5 counterexample: the claim "rows are never duplicated" fails literally:
two case-variants of the same half ("top" and "Top") are distinct
case-sensitive dict keys, and after `.title()` both rows are identical. -/
theorem c5_duplicate_rows_counterexample :
    appGameRows "g" [⟨some 1, some "top", some "s", some "e"⟩,
        ⟨some 1, some "Top", some "s", some "e"⟩] =
      [⟨"g", 1, "Top", "s", "e"⟩, ⟨"g", 1, "Top", "s", "e"⟩] ∧
    ¬ (appGameRows "g" [⟨some 1, some "top", some "s", some "e"⟩,
        ⟨some 1, some "Top", some "s", some "e"⟩]).Nodup := by
  constructor
  · decide
  · decide

/-- C5 as amended: the row count equals the number of distinct case-sensitive
`(inning, halfInning)` keys among valid plays (so exactly one row per key,
and zero valid plays yield zero rows); the underlying dict keys are pairwise
distinct, though title-casing may render two case-variant keys as equal
rows. -/
theorem c5_amended_rows_per_key (gp : String) (plays : List Play) :
    (appGameRows gp plays).length = (validKeys plays).dedup.length ∧
    ((processPlays plays).map Prod.fst).Nodup ∧
    (validKeys plays = [] → appGameRows gp plays = []) := by
  refine ⟨?_, nodup_keys_foldl plays [] (by simp), ?_⟩
  · rw [appGameRows, rowsOf, List.length_map]
    exact length_processPlays plays
  · intro h
    rw [appGameRows, rowsOf, processPlays_eq_nil_of_validKeys_nil plays h]
    rfl

/-- Witness for C5 (amended): a single invalid play yields no rows. -/
theorem c5_amended_rows_per_key_witness :
    appGameRows "g" [⟨none, some "top", some "s", some "e"⟩] = [] :=
  (c5_amended_rows_per_key "g" [⟨none, some "top", some "s", some "e"⟩]).2.2 (by decide)

/-- C6: a play record missing any of the four fields contributes nothing:
the aggregation of any play list containing it equals the aggregation with
the record removed (and the fold is total, so no error is raised). -/
theorem c6_missing_field_skipped (p : Play)
    (h : p.inning = none ∨ p.halfInning = none ∨ p.startTime = none ∨ p.endTime = none)
    (xs ys : List Play) :
    processPlays (xs ++ p :: ys) = processPlays (xs ++ ys) := by
  have hf : playFields p = none := by
    obtain ⟨o1, o2, o3, o4⟩ := p
    cases o1 <;> cases o2 <;> cases o3 <;> cases o4 <;> simp_all [playFields]
  rw [processPlays, processPlays, List.foldl_append, List.foldl_append, List.foldl_cons]
  have hstep : stepPlay (xs.foldl stepPlay []) p = xs.foldl stepPlay [] := by
    simp [stepPlay, hf]
  rw [hstep]

/-- Witness for C6: a play missing `halfInning` between two valid plays
leaves the aggregation unchanged. -/
theorem c6_missing_field_skipped_witness :
    processPlays [⟨some 1, some "top", some "s", some "e"⟩,
        ⟨some 2, none, some "s", some "e"⟩] =
      processPlays [⟨some 1, some "top", some "s", some "e"⟩] :=
  c6_missing_field_skipped ⟨some 2, none, some "s", some "e"⟩ (Or.inr (Or.inl rfl))
    [⟨some 1, some "top", some "s", some "e"⟩] []

/-- C7: the aggregator does not guarantee `start <= end`: a sequence of valid
plays exists whose stored window has `end` strictly below `start` (the two
fields are tracked independently). -/
theorem c7_start_end_not_ordered :
    ∃ plays : List Play, (∀ p ∈ plays, (playFields p).isSome = true) ∧
      ∃ k w, lookupTimes (processPlays plays) k = some w ∧ strLt w.«end» w.start = true :=
  ⟨[⟨some 1, some "top", some "b", some "a"⟩], by decide,
    (1, "top"), ⟨"b", "a"⟩, by decide, by decide⟩

/-- C8: a fetch failure for one identifier (the `None` return of
`process_game`) removes exactly that identifier from the batch result — the
collection over the remaining identifiers is unchanged — and the aggregator
produces nothing for it (`process_game` returns `None` before aggregating). -/
theorem c8_fetch_failure_isolated (fetch : String → Option (List Play)) (bad : String)
    (h : fetch bad = none) (xs ys : List String) :
    collectResults fetch (xs ++ bad :: ys) = collectResults fetch (xs ++ ys) ∧
    process_game (fetch bad) bad = none := by
  constructor
  · simp [collectResults, List.filterMap_append, List.filterMap_cons, h, process_game]
  · rw [h]
    rfl

/-- Witness for C8: identifier "404" fails to fetch; the batch result over
["7", "404", "9"] equals the one over ["7", "9"]. -/
theorem c8_fetch_failure_isolated_witness :
    collectResults
        (fun s => if s = "404" then none else some [⟨some 1, some "top", some "s", some "e"⟩])
        ["7", "404", "9"] =
      collectResults
        (fun s => if s = "404" then none else some [⟨some 1, some "top", some "s", some "e"⟩])
        ["7", "9"] :=
  (c8_fetch_failure_isolated
    (fun s => if s = "404" then none else some [⟨some 1, some "top", some "s", some "e"⟩])
    "404" (by decide) ["7"] ["9"]).1

/-- C9: the gathered identifier list is the stripped non-empty text-area
lines followed by the stripped non-empty file lines, nothing deduplicated
(occurrence counts add), and each occurrence of an identifier whose fetch
succeeds with non-empty rows produces its own entry in the batch result. -/
theorem c9_gather_no_dedup (t f : String) (fetch : String → Option (List Play)) (id : String)
    (h : ∃ rows, process_game (fetch id) id = some rows ∧ rows ≠ []) :
    gatherGamePks t (some f) = stripLines (splitLines t) ++ stripLines (splitLines f) ∧
    (∀ s : String, (gatherGamePks t (some f)).count s =
        (stripLines (splitLines t)).count s + (stripLines (splitLines f)).count s) ∧
    (∀ pks : List String,
        (collectResults fetch pks).countP (fun e => e.1 == id) = pks.count id) := by
  have hgather : gatherGamePks t (some f) =
      stripLines (splitLines t) ++ stripLines (splitLines f) := by
    by_cases ht : t = ""
    · subst ht
      have hempty : stripLines (splitLines "") = [] := by decide
      simp [gatherGamePks, hempty]
    · simp [gatherGamePks, if_neg ht]
  refine ⟨hgather, ?_, ?_⟩
  · intro s
    rw [hgather, List.count_append]
  · intro pks
    obtain ⟨rows, hrows, hne⟩ := h
    induction pks with
    | nil => rfl
    | cons gp pks ih =>
      by_cases hgp : gp = id
      · subst hgp
        simp only [collectResults, List.filterMap_cons] at ih ⊢
        rw [hrows]
        simp [if_neg hne, List.countP_cons, List.count_cons, ih]
      · simp only [collectResults, List.filterMap_cons] at ih ⊢
        have hcount : List.count id (gp :: pks) = List.count id pks := by
          rw [List.count_cons, if_neg (by simp [hgp])]
          omega
        rw [hcount]
        cases hpg : process_game (fetch gp) gp with
        | none =>
          exact ih
        | some rows' =>
          by_cases hr : rows' = []
          · simp only [if_pos hr]
            exact ih
          · simp only [if_neg hr, List.countP_cons, beq_iff_eq, hgp, if_false]
            simpa using ih

/-- Witness for C9: identifier "7" occurring twice yields two independent
result entries. -/
theorem c9_gather_no_dedup_witness :
    (collectResults (fun _ => some [⟨some 1, some "top", some "s", some "e"⟩])
        ["7", "7"]).countP (fun e => e.1 == "7") = List.count "7" ["7", "7"] :=
  ((c9_gather_no_dedup "7\n7" "" (fun _ => some [⟨some 1, some "top", some "s", some "e"⟩]) "7"
      ⟨[⟨"7", 1, "Top", "s", "e"⟩], by decide, by decide⟩).2.2) ["7", "7"]

/-- C10: a play is skipped exactly when a field is `None` (present-but-falsy
values such as inning 0 or empty-string timestamps are aggregated normally,
e.g. the concrete all-falsy play below produces a window), an empty-string
`startTime` among the plays of a key becomes the start of that window, and
the stored end is non-empty whenever any `endTime` value of the key is. -/
theorem c10_falsy_fields_aggregated (plays : List Play) (k : Key)
    (h1 : "" ∈ startsFor k plays)
    (h2 : ∃ e₀ ∈ endsFor k plays, e₀ ≠ "") :
    (∀ q : Play, playFields q = none ↔
        (q.inning = none ∨ q.halfInning = none ∨ q.startTime = none ∨ q.endTime = none)) ∧
    (∀ ps : List Play,
        processPlays ps = processPlays (ps.filter (fun q => (playFields q).isSome))) ∧
    processPlays [⟨some 0, some "top", some "", some ""⟩] = [((0, "top"), ⟨"", ""⟩)] ∧
    (∃ w, lookupTimes (processPlays plays) k = some w ∧ w.start = "" ∧ w.«end» ≠ "") := by
  refine ⟨?_, fun ps => foldl_filter_valid ps [], by decide, ?_⟩
  · intro q
    obtain ⟨o1, o2, o3, o4⟩ := q
    cases o1 <;> cases o2 <;> cases o3 <;> cases o4 <;> simp [playFields]
  · cases hL : lookupTimes (processPlays plays) k with
    | none =>
      exfalso
      have := (lookupTimes_processPlays_eq_none_iff plays k).1 hL
      rw [startsFor, this] at h1
      simp at h1
    | some w =>
      obtain ⟨_, hmin, _, hmax⟩ := processPlays_window_minmax plays k w hL
      refine ⟨w, rfl, ?_, ?_⟩
      · exact eq_empty_of_strLe_empty (hmin "" h1)
      · obtain ⟨e₀, he₀, hne₀⟩ := h2
        intro hwe
        exact hne₀ (eq_empty_of_strLe_empty (hwe ▸ hmax e₀ he₀))

/-! ### Totality and transitivity of the sort relations -/

theorem rowLeb_total (a b : Row) : rowLeb a b = true ∨ rowLeb b a = true := by
  simp only [rowLeb, Bool.or_eq_true, Bool.and_eq_true, decide_eq_true_eq]
  omega

theorem rowLeb_trans (a b c : Row) (hab : rowLeb a b = true) (hbc : rowLeb b c = true) :
    rowLeb a c = true := by
  simp only [rowLeb, Bool.or_eq_true, Bool.and_eq_true, decide_eq_true_eq] at hab hbc ⊢
  omega

theorem keyLeb_total (a b : Key) : keyLeb a b = true ∨ keyLeb b a = true := by
  simp only [keyLeb, Bool.or_eq_true, Bool.and_eq_true, decide_eq_true_eq]
  rcases Nat.lt_trichotomy a.1 b.1 with h | h | h
  · exact Or.inl (Or.inl h)
  · rcases strLe_total a.2 b.2 with hs | hs
    · exact Or.inl (Or.inr ⟨h, hs⟩)
    · exact Or.inr (Or.inr ⟨h.symm, hs⟩)
  · exact Or.inr (Or.inl h)

theorem keyLeb_trans (a b c : Key) (hab : keyLeb a b = true) (hbc : keyLeb b c = true) :
    keyLeb a c = true := by
  simp only [keyLeb, Bool.or_eq_true, Bool.and_eq_true, decide_eq_true_eq] at hab hbc ⊢
  rcases hab with h₁ | ⟨h₁, hs₁⟩
  · rcases hbc with h₂ | ⟨h₂, _⟩
    · exact Or.inl (h₁.trans h₂)
    · exact Or.inl (h₂ ▸ h₁)
  · rcases hbc with h₂ | ⟨h₂, hs₂⟩
    · exact Or.inl (h₁ ▸ h₂)
    · exact Or.inr ⟨h₁.trans h₂, strLe_trans hs₁ hs₂⟩

/-- C2 counterexample: with a top and a bottom play of inning 1,
the `sorted(times.items())` of `MLB_PkID_Export.py` orders "bottom" before "top"
(alphabetically), so its output rows violate the canonical Top-before-Bottom
ordering the claim asserts. -/
theorem c2_export_rows_not_canonical :
    ¬ canonicallyOrdered (exportGameRows "g"
        [⟨some 1, some "top", some "s1", some "e1"⟩,
         ⟨some 1, some "bottom", some "s2", some "e2"⟩]) := by
  intro h
  have hrows : exportGameRows "g"
      [⟨some 1, some "top", some "s1", some "e1"⟩,
       ⟨some 1, some "bottom", some "s2", some "e2"⟩] =
      [⟨"g", 1, "Bottom", "s2", "e2"⟩, ⟨"g", 1, "Top", "s1", "e1"⟩] := by decide
  rw [hrows] at h
  have hsorted : List.Sorted (fun a b : Row => rowLeb a b = true)
      [⟨"g", 1, "Bottom", "s2", "e2"⟩, ⟨"g", 1, "Top", "s1", "e1"⟩] := h
  have := List.rel_of_sorted_cons hsorted _ (List.mem_cons_self _ _)
  exact absurd this (by decide)

/-- C2 as amended: the rows `mlb_inning_times_app.py` displays and exports
are sorted with inning ascending and Top (order 0) before Bottom (order 1);
the rows of `MLB_PkID_Export.py` are instead sorted by the raw
`(inning, halfInning)` key, under which "bottom" precedes "top" within an
inning. -/
theorem c2_amended_orderings :
    (∀ rows : List Row, canonicallyOrdered (displaySort rows)) ∧
    (∀ times : List (Key × Window),
        List.Sorted (fun x y : Key × Window => keyLeb x.1 y.1 = true) (sortTimes times)) := by
  constructor
  · intro rows
    haveI : IsTotal Row (fun a b => rowLeb a b = true) := ⟨rowLeb_total⟩
    haveI : IsTrans Row (fun a b => rowLeb a b = true) := ⟨rowLeb_trans⟩
    exact List.sorted_insertionSort _ rows
  · intro times
    haveI : IsTotal (Key × Window) (fun x y => keyLeb x.1 y.1 = true) :=
      ⟨fun x y => keyLeb_total x.1 y.1⟩
    haveI : IsTrans (Key × Window) (fun x y => keyLeb x.1 y.1 = true) :=
      ⟨fun x y z => keyLeb_trans x.1 y.1 z.1⟩
    exact List.sorted_insertionSort _ times

/-- C3 counterexample: with two non-empty results, `MLB_PkID_Export.py`
writes a single sheet named "Innings" holding the concatenation, not one
sheet per identifier named by the identifier. -/
theorem c3_pk_single_sheet_counterexample :
    sheetNames (exportPk [[⟨"1", 1, "Top", "s", "e"⟩], [⟨"2", 1, "Top", "s", "e"⟩]]
        ["1", "2"]) = some ["Innings"] ∧
    (some ["Innings"] : Option (List String)) ≠ some ["1", "2"] := by
  constructor
  · decide
  · decide

/-- C3 as amended: both scripts produce a CSV exactly when one non-empty
result exists; with two or more, `mlb_inning_times_app.py` produces one
sheet per identifier named `str(gp)`, while `MLB_PkID_Export.py` produces a
single sheet named "Innings"; with zero results neither exports. -/
theorem c3_amended_export_shapes (result_data : List (String × List Row))
    (result_dfs : List (List Row)) (gps : List String) :
    (isCsv (exportApp result_data) = true ↔ result_data.length = 1) ∧
    (2 ≤ result_data.length →
        sheetNames (exportApp result_data) = some (result_data.map Prod.fst)) ∧
    (isCsv (exportPk result_dfs gps) = true ↔ result_dfs.length = 1) ∧
    (2 ≤ result_dfs.length → sheetNames (exportPk result_dfs gps) = some ["Innings"]) ∧
    exportApp [] = none ∧ exportPk [] gps = none := by
  refine ⟨?_, ?_, ?_, ?_, rfl, rfl⟩
  · obtain _ | ⟨⟨gp, rows⟩, rd⟩ := result_data
    · simp [exportApp, isCsv]
    · obtain _ | ⟨b, rd⟩ := rd
      · simp [exportApp, isCsv]
      · simp [exportApp, isCsv]
  · obtain _ | ⟨⟨gp, rows⟩, rd⟩ := result_data
    · intro h
      simp at h
    · obtain _ | ⟨b, rd⟩ := rd
      · intro h
        simp at h
      · intro _
        simp [exportApp, sheetNames, List.map_map, Function.comp]
  · obtain _ | ⟨rows, dfs⟩ := result_dfs
    · simp [exportPk, isCsv]
    · obtain _ | ⟨rows', dfs⟩ := dfs
      · simp [exportPk, isCsv]
      · simp [exportPk, isCsv]
  · obtain _ | ⟨rows, dfs⟩ := result_dfs
    · intro h
      simp at h
    · obtain _ | ⟨rows', dfs⟩ := dfs
      · intro h
        simp at h
      · intro _
        simp [exportPk, sheetNames]

/-- Witness for C3 (amended): two results select the spreadsheet branch with
sheet names ["1", "2"] in the app script and ["Innings"] in the export
script; a single result selects the CSV branch. -/
theorem c3_amended_export_shapes_witness :
    sheetNames (exportApp [("1", []), ("2", [])]) = some ["1", "2"] ∧
    sheetNames (exportPk [[], []] ["1", "2"]) = some ["Innings"] ∧
    isCsv (exportApp [("1", [])]) = true := by
  have h := c3_amended_export_shapes [("1", []), ("2", [])] [[], []] ["1", "2"]
  have h' := c3_amended_export_shapes [("1", ([] : List Row))] [[], []] ["1", "2"]
  exact ⟨h.2.1 (by decide), h.2.2.2.1 (by decide), h'.1.2 (by decide)⟩

/-- C4 counterexample: `MLB_PkID_Export.py` never sorts the batch: two
all-numeric identifiers are collected in input order ["10", "2"], not in the
numeric order the claim asserts. -/
theorem c4_pk_batch_unsorted_counterexample :
    ((collectDfs (fun _ => some [⟨some 1, some "top", some "s", some "e"⟩]) ["10", "2"]).map
        (fun rows => rows.map Row.gamePk)) = [["10"], ["2"]] ∧
    ¬ List.Sorted (fun a b : String => (parsePyInt a).getD 0 ≤ (parsePyInt b).getD 0)
        ["10", "2"] := by
  constructor
  · decide
  · intro h
    have := List.rel_of_sorted_cons h "2" (List.mem_cons_self _ _)
    exact absurd this (by decide)

/-- C4 as amended: `mlb_inning_times_app.py` sorts the collected pairs — a
permutation sorted by the parsed integer when every identifier parses, and
by string order otherwise, matching both spec examples — while
`MLB_PkID_Export.py` collects results as an order-preserving sublist of the
input identifier sequence, with no sorting. -/
theorem c4_amended_batch_sort (rd : List (String × List Row)) :
    (rd.all (fun e => (parsePyInt e.1).isSome) = true →
        List.Perm (sortResultData rd) rd ∧
        List.Sorted (fun a b : String × List Row =>
            (parsePyInt a.1).getD 0 ≤ (parsePyInt b.1).getD 0) (sortResultData rd)) ∧
    (rd.all (fun e => (parsePyInt e.1).isSome) = false →
        List.Perm (sortResultData rd) rd ∧
        List.Sorted (fun a b : String × List Row => strLe a.1 b.1 = true)
          (sortResultData rd)) ∧
    ((sortResultData [("10", []), ("2", []), ("30", [])]).map Prod.fst =
        ["2", "10", "30"]) ∧
    ((sortResultData [("10", []), ("abc", []), ("2", [])]).map Prod.fst =
        ["10", "2", "abc"]) ∧
    (∀ (fetch : String → Option (List Play)) (pks : List String),
        List.Sublist (collectDfs fetch pks)
          (pks.map (fun gp => exportGameRows gp ((fetch gp).getD [])))) := by
  refine ⟨?_, ?_, by decide, by decide, ?_⟩
  · intro hall
    rw [sortResultData, if_pos hall]
    constructor
    · exact List.perm_insertionSort _ rd
    · haveI : IsTotal (String × List Row)
          (fun a b => (parsePyInt a.1).getD 0 ≤ (parsePyInt b.1).getD 0) :=
        ⟨fun a b => Int.le_total _ _⟩
      haveI : IsTrans (String × List Row)
          (fun a b => (parsePyInt a.1).getD 0 ≤ (parsePyInt b.1).getD 0) :=
        ⟨fun a b c => Int.le_trans⟩
      exact List.sorted_insertionSort _ rd
  · intro hall
    rw [sortResultData, if_neg (by simp [hall])]
    constructor
    · exact List.perm_insertionSort _ rd
    · haveI : IsTotal (String × List Row) (fun a b => strLe a.1 b.1 = true) :=
        ⟨fun a b => strLe_total a.1 b.1⟩
      haveI : IsTrans (String × List Row) (fun a b => strLe a.1 b.1 = true) :=
        ⟨fun a b c => strLe_trans⟩
      exact List.sorted_insertionSort _ rd
  · intro fetch pks
    induction pks with
    | nil => exact List.Sublist.refl []
    | cons gp pks ih =>
      rw [List.map_cons]
      cases hfe : fetch gp with
      | none =>
        have hstep : collectDfs fetch (gp :: pks) = collectDfs fetch pks := by
          simp [collectDfs, List.filterMap_cons, process_game_pk, hfe]
        rw [hstep]
        exact List.Sublist.cons _ ih
      | some plays =>
        by_cases hr : exportGameRows gp plays = []
        · have hstep : collectDfs fetch (gp :: pks) = collectDfs fetch pks := by
            simp [collectDfs, List.filterMap_cons, process_game_pk, hfe, hr]
          rw [hstep]
          exact List.Sublist.cons _ ih
        · have hstep : collectDfs fetch (gp :: pks) =
              exportGameRows gp plays :: collectDfs fetch pks := by
            simp [collectDfs, List.filterMap_cons, process_game_pk, hfe, hr]
          rw [hstep]
          exact List.Sublist.cons₂ _ ih

/-- Witness for C4 (amended): an all-numeric two-element batch is a sorted
permutation of itself. -/
theorem c4_amended_batch_sort_witness :
    List.Perm (sortResultData [("10", ([] : List Row)), ("2", [])])
        [("10", []), ("2", [])] ∧
      List.Sorted (fun a b : String × List Row =>
          (parsePyInt a.1).getD 0 ≤ (parsePyInt b.1).getD 0)
        (sortResultData [("10", ([] : List Row)), ("2", [])]) :=
  (c4_amended_batch_sort [("10", []), ("2", [])]).1 (by decide)

/-- Witness for C10: inning-1-top plays with an empty-string start and a
non-empty end "z" give a window with start "" and non-empty end. -/
theorem c10_falsy_fields_aggregated_witness :
    ∃ w, lookupTimes (processPlays [⟨some 1, some "top", some "", some "z"⟩,
        ⟨some 1, some "top", some "x", some ""⟩]) (1, "top") = some w ∧
      w.start = "" ∧ w.«end» ≠ "" :=
  (c10_falsy_fields_aggregated
    [⟨some 1, some "top", some "", some "z"⟩, ⟨some 1, some "top", some "x", some ""⟩]
    (1, "top") (by decide) ⟨"z", by decide, by decide⟩).2.2.2

end MLB
